import Mathlib

/-!
# qcus front-end client: `src/lib/api.js` and `src/lib/websocket.js`

A shallow embedding of the client library of the qcus file-sharing service
and the properties of its request/response contracts.

* JavaScript strings are sequences of UTF-16 code units (`JSString`).
* `String.prototype.match` with the five regular expressions of `uploadFile`
  is `regexSearch`: leftmost match of a literal followed by one capture group.
* `async` functions yield `Except JSError α` (fulfilled / rejected).
* Module state (`configPromise`) and promise identity live in `World`.
* JavaScript numbers are IEEE 754 binary64 values, modelled as the rationals
  they denote, with `toDouble` the round-to-nearest-even of the format.
-/

namespace Qcus

/-! ## Strings -/

/-- One UTF-16 code unit of a JavaScript string. -/
abbrev CodeUnit := Nat

/-- A JavaScript string: its sequence of UTF-16 code units. -/
abbrev JSString := List CodeUnit

/-- The code units of an ASCII string literal of the source. -/
def lit (s : String) : JSString := s.toList.map Char.toNat

/-- ECMAScript `LineTerminator`: LF, CR, LS, PS. -/
def isLineTerminator (c : CodeUnit) : Bool :=
  c == 0x0A || c == 0x0D || c == 0x2028 || c == 0x2029

/-- ECMAScript `WhiteSpace` or `LineTerminator`: the set matched by `\s` in a regular
expression and stripped by `String.prototype.trim`. -/
def isWhiteSpace (c : CodeUnit) : Bool :=
  c == 0x09 || c == 0x0B || c == 0x0C || c == 0x20 || c == 0xA0 || c == 0x1680 ||
  (0x2000 ≤ c && c ≤ 0x200A) || c == 0x202F || c == 0x205F || c == 0x3000 || c == 0xFEFF ||
  isLineTerminator c

/-- `String.prototype.trim`. -/
def trim (s : JSString) : JSString :=
  ((s.dropWhile isWhiteSpace).reverse.dropWhile isWhiteSpace).reverse

/-- `String.prototype.includes`: does `needle` occur in `s`? -/
def includes (needle : JSString) : JSString → Bool
  | [] => needle.isPrefixOf []
  | c :: cs => needle.isPrefixOf (c :: cs) || includes needle cs

/-! ## Regular expressions of `uploadFile` -/

/-- A regular expression of the shape `/pre(head cls+)/`: literal text `pre`, then one
capture group made of literal text `head` and a greedy non-empty run of code units in
the class `cls`. -/
structure Pattern where
  pre : JSString
  head : JSString
  cls : CodeUnit → Bool

/-- The match of a pattern anchored at the start of `s`; the result is capture group 1. -/
def Pattern.matchAt (p : Pattern) (s : JSString) : Option JSString :=
  if (p.pre ++ p.head).isPrefixOf s then
    let run := (s.drop (p.pre ++ p.head).length).takeWhile p.cls
    if run.isEmpty then none else some (p.head ++ run)
  else none

/-- `s.match(re)` for a non-global `re`: the leftmost start position at which the
pattern matches; `none` is JavaScript `null`. The result is capture group 1. -/
def regexSearch (p : Pattern) : JSString → Option JSString
  | [] => p.matchAt []
  | c :: cs =>
    match p.matchAt (c :: cs) with
    | some g => some g
    | none => regexSearch p cs

/-- `/Download URL: (http[^\s]+)/` -/
def urlPattern : Pattern := ⟨lit "Download URL: ", lit "http", fun c => !isWhiteSpace c⟩

/-- `/cURL command: (.+)/` -/
def curlPattern : Pattern := ⟨lit "cURL command: ", [], fun c => !isLineTerminator c⟩

/-- `/Original name: ([^\n]+)/` -/
def namePattern : Pattern := ⟨lit "Original name: ", [], fun c => !(c == 0x0A)⟩

/-- `/File size: ([^\n]+)/` -/
def sizePattern : Pattern := ⟨lit "File size: ", [], fun c => !(c == 0x0A)⟩

/-- `/\/download\/([^\/\s]+)/` -/
def fileIDPattern : Pattern := ⟨lit "/download/", [], fun c => !(c == 0x2F || isWhiteSpace c)⟩

/-! ## `uploadFile` -/

/-- The `data` object of a successful upload result. -/
structure UploadData where
  fileName : JSString
  fileSize : JSString
  downloadURL : JSString
  curlCommand : JSString
  /-- `none` is JavaScript `null`. -/
  fileID : Option JSString
  deriving DecidableEq, Repr

/-- The object `uploadFile` resolves with: `{success: true, data}` or
`{success: false, error[, unauthorized]}`; `unauthorized = none` is an absent property. -/
inductive UploadResult
  | success (data : UploadData)
  | failure (error : JSString) (unauthorized : Option Bool)
  deriving DecidableEq, Repr

/-- The `load` listener of the request (api.js lines 71-121): the value passed to
`resolve`, from `xhr.status`, `xhr.responseText` and `xhr.statusText`. -/
def onLoad (status : Nat) (responseText statusText : JSString) : UploadResult :=
  if status = 200 then
    let response := responseText
    let urlMatch := regexSearch urlPattern response
    let curlMatch := regexSearch curlPattern response
    let nameMatch := regexSearch namePattern response
    let sizeMatch := regexSearch sizePattern response
    match urlMatch with
    | some downloadURL =>
      let curlCommand := curlMatch.getD []
      let fileName := nameMatch.getD []
      let fileSize := sizeMatch.getD []
      let fileID := regexSearch fileIDPattern downloadURL
      .success { fileName, fileSize, downloadURL, curlCommand, fileID }
    | none => .failure (lit "Upload successful but couldn't parse response") none
  else if status = 401 then
    .failure (lit "Unauthorized: Invalid password") (some true)
  else
    let errorMessage := if (trim responseText).isEmpty then statusText else trim responseText
    let errorMessage :=
      if errorMessage.length > 200 || includes (lit "<html") errorMessage then statusText
      else errorMessage
    .failure (lit "Upload failed: " ++ errorMessage) none

/-! ## Numbers -/

/-- Round a real value to the nearest integer, ties to the even one: the rounding of
IEEE 754 `roundTiesToEven` on a scaled significand. -/
def roundTiesToEven (q : ℚ) : ℤ :=
  if q - ⌊q⌋ < 1 / 2 then ⌊q⌋
  else if 1 / 2 < q - ⌊q⌋ then ⌊q⌋ + 1
  else if ⌊q⌋ % 2 = 0 then ⌊q⌋ else ⌊q⌋ + 1

/-- The binary64 value nearest to the real `x` (ties to even): with `2^e ≤ |x| < 2^(e+1)`,
`x` is rounded to a multiple of `2^(e-52)`. This is the result of every JavaScript
arithmetic operation whose exact result is `x`, for `x` in the normal range of the
format (`2^-1022 ≤ |x| < 2^1024`), which holds every value computed by `uploadFile`. -/
def toDouble (x : ℚ) : ℚ :=
  if x = 0 then 0
  else (roundTiesToEven (x * 2 ^ (52 - Int.log 2 |x|)) : ℚ) * 2 ^ (Int.log 2 |x| - 52)

/-- A JavaScript Number as far as `uploadFile` produces them. -/
inductive JSNumber
  | finite (x : ℚ)
  | infinity
  | nan

/-- `Math.round` on a finite Number: the closest integer, ties towards `+∞`. -/
def mathRound (x : ℚ) : ℤ := ⌊x + 1 / 2⌋

/-- The event object of an `XMLHttpRequestUpload` `progress` event; `loaded` and `total`
are `unsigned long long` attributes. -/
structure ProgressEvent where
  lengthComputable : Bool
  loaded : Nat
  total : Nat

/-- `Math.round((e.loaded / e.total) * 100)` (api.js line 65). Reading `e.loaded` and
`e.total` converts them to Numbers; division and multiplication round to binary64. -/
def percentage (e : ProgressEvent) : JSNumber :=
  if e.total = 0 then
    if e.loaded = 0 then .nan else .infinity
  else
    .finite (mathRound (toDouble (toDouble (toDouble e.loaded / toDouble e.total) * 100)))

/-- The `progress` listener (api.js lines 63-68): the argument `onProgress` is called
with, if it is called. `hasOnProgress` tells whether `onProgress` is truthy. -/
def onProgressEvent (hasOnProgress : Bool) (e : ProgressEvent) : Option JSNumber :=
  if e.lengthComputable && hasOnProgress then some (percentage e) else none

/-- How the request ends: a `load` event with the response, or an `error` event. -/
inductive XhrEnd
  | load (status : Nat) (responseText statusText : JSString)
  | error

/-- What one call of `uploadFile` does: the arguments of the successive `onProgress`
calls and the value the returned promise resolves with. -/
structure UploadRun where
  progress : List JSNumber
  result : UploadResult

/-- `uploadFile(file, password, onProgress)` run against a transport that delivers the
progress events `events` and then ends with `fin`. -/
def uploadFile (hasOnProgress : Bool) (events : List ProgressEvent) (fin : XhrEnd) : UploadRun where
  progress := events.filterMap (onProgressEvent hasOnProgress)
  result :=
    match fin with
    | .load status responseText statusText => onLoad status responseText statusText
    | .error => .failure (lit "Upload failed: Network error") none

/-! ## Values, errors and `fetch` -/

/-- A value produced by `JSON.parse` or `response.json()`. -/
inductive JSValue
  | null
  | bool (b : Bool)
  | number (x : ℚ)
  | string (s : JSString)
  | array (items : List JSValue)
  | object (props : List (JSString × JSValue))

/-- A thrown value or rejection reason. -/
inductive JSError
  | typeError
  | syntaxError
  | other
  deriving DecidableEq, Repr

/-- A `Response` of the Fetch API: its status and what `response.json()` settles to. -/
structure Response where
  status : Nat
  json : Except JSError JSValue

/-- `response.ok`: the status is in the range 200-299. -/
def Response.ok (r : Response) : Bool := 200 ≤ r.status && r.status ≤ 299

/-- What the promise returned by `fetch` settles to: a response, or a rejection
(network failure, invalid request). -/
abbrev FetchOutcome := Except JSError Response

/-! ## `getPublicConfig` -/

/-- `{ isDefaultPassword: true, fileExpiryMinutes: 10, maxFileSizeMB: 100 }` -/
def defaultConfig : JSValue :=
  .object [(lit "isDefaultPassword", .bool true), (lit "fileExpiryMinutes", .number 10),
    (lit "maxFileSizeMB", .number 100)]

/-- The body of the `async` arrow function of api.js lines 12-23, given what
`fetch('/config')` settles to: what the cached promise settles to. -/
def fetchConfig (fetched : FetchOutcome) : Except JSError JSValue :=
  tryCatch
    (do
      let response ← fetched
      if response.ok then
        let value ← response.json
        return value
      return defaultConfig)
    (fun _error => pure defaultConfig)

/-- The state of a promise object. -/
inductive PromiseState
  | pending
  | fulfilled (value : JSValue)
  | rejected (reason : JSError)
  /-- Resolved with another promise, whose eventual state it adopts. -/
  | resolvedWith (promise : Nat)

/-- The state a promise takes when the `async` body behind it ends with `result`. -/
def PromiseState.ofResult : Except JSError JSValue → PromiseState
  | .ok value => .fulfilled value
  | .error reason => .rejected reason

/-- The module `api.js` at run time. Promise objects are identified by their index in
`promises`. -/
structure World where
  /-- The module-level `let configPromise = null`. -/
  configPromise : Option Nat
  promises : List PromiseState
  /-- Number of `GET /config` requests issued so far. -/
  requests : Nat

/-- The module right after loading. -/
def World.init : World := ⟨none, [], 0⟩

/-- One call `getPublicConfig()`: the promise it returns and the new state. As an
`async function`, every call creates a new promise, which `return configPromise`
resolves with the cached promise. -/
def getPublicConfig (w : World) : Nat × World :=
  let outer := w.promises.length
  let w : World := { w with promises := w.promises ++ [.pending] }
  let w : World :=
    if w.configPromise.isNone then
      { configPromise := some w.promises.length
        promises := w.promises ++ [.pending]
        requests := w.requests + 1 }
    else w
  match w.configPromise with
  | some cached => (outer, { w with promises := w.promises.set outer (.resolvedWith cached) })
  | none => (outer, w)

/-- The request `fetch('/config')` in flight settles: the cached promise settles to
the result of the arrow function's body. Without a pending request nothing happens. -/
def fetchSettles (fetched : FetchOutcome) (w : World) : World :=
  match w.configPromise with
  | none => w
  | some cached =>
    match w.promises[cached]? with
    | some .pending =>
      { w with promises := w.promises.set cached (PromiseState.ofResult (fetchConfig fetched)) }
    | _ => w

/-- What awaiting promise `p` yields, once it is settled. -/
def World.settled (w : World) (p : Nat) : Option (Except JSError JSValue) :=
  match w.promises[p]? with
  | some (.fulfilled value) => some (.ok value)
  | some (.rejected reason) => some (.error reason)
  | some (.resolvedWith q) =>
    match w.promises[q]? with
    | some (.fulfilled value) => some (.ok value)
    | some (.rejected reason) => some (.error reason)
    | _ => none
  | _ => none

/-- What happens during a module lifetime: a caller calls `getPublicConfig`, or the
request to `/config` settles. -/
inductive Event
  | call
  | settle (fetched : FetchOutcome)

/-- A module lifetime so far: the state and the promises returned by the calls, in
call order. -/
structure Lifetime where
  world : World
  returned : List Nat

/-- One event of a lifetime: a call adds the promise it returns to `returned`. -/
def Lifetime.step (t : Lifetime) : Event → Lifetime
  | .call => ⟨(getPublicConfig t.world).2, t.returned ++ [(getPublicConfig t.world).1]⟩
  | .settle fetched => ⟨fetchSettles fetched t.world, t.returned⟩

/-- The module after the events `events`, from a fresh load. -/
def run (events : List Event) : Lifetime := events.foldl Lifetime.step ⟨World.init, []⟩

/-- Number of calls of `getPublicConfig` among the events. -/
def callCount : List Event → Nat
  | [] => 0
  | .call :: es => callCount es + 1
  | .settle _ :: es => callCount es

/-! ## `validatePassword` -/

/-- `validatePassword(password)` (api.js lines 33-46); `login password` is what the
`fetch('/login', ...)` carrying the password settles to. -/
def validatePassword (login : JSString → FetchOutcome) (password : JSString) :
    Except JSError Bool :=
  tryCatch
    (do
      let response ← login password
      return response.ok)
    (fun _error => pure false)

/-! ## `connectToFileNotifications` -/

/-- The property read `data[key]` on a parsed JSON value: `none` is `undefined`, and
reading a property of `null` throws a `TypeError`. A later duplicate key of an object
overrides an earlier one. -/
def getProp (data : JSValue) (key : JSString) : Except JSError (Option JSValue) :=
  match data with
  | .null => .error .typeError
  | .object props => .ok ((props.reverse.find? (fun kv => kv.1 == key)).map (fun kv => kv.2))
  | _ => .ok none

/-- `ToBoolean` of a property value. -/
def truthy : Option JSValue → Bool
  | none => false
  | some .null => false
  | some (.bool b) => b
  | some (.number x) => x != 0
  | some (.string s) => !s.isEmpty
  | some (.array _) => true
  | some (.object _) => true

/-- The `onDownloaded` argument: absent (`undefined` or `null`), or a function, which
returns or throws when called. -/
inductive Callback
  | absent
  | returns
  | throws (e : JSError)
  deriving DecidableEq, Repr

/-- What handling one message did. -/
structure Handled where
  /-- Number of calls of `onDownloaded`. -/
  calls : Nat
  /-- Was `console.error` called? -/
  logged : Bool
  /-- The exception leaving the handler, if any. -/
  thrown : Option JSError
  deriving DecidableEq, Repr

/-- The `try` block of `websocket.onmessage` (websocket.js lines 21-24): the number of
calls of `onDownloaded` it made and the exception it ended with, if any. `parse` is
`JSON.parse`. -/
def onmessageTry (parse : JSString → Except JSError JSValue) (onDownloaded : Callback)
    (eventData : JSString) : Nat × Option JSError :=
  match parse eventData with
  | .error e => (0, some e)
  | .ok data =>
    match getProp data (lit "downloaded") with
    | .error e => (0, some e)
    | .ok downloaded =>
      if truthy downloaded && onDownloaded != .absent then
        match onDownloaded with
        | .throws e => (1, some e)
        | _ => (1, none)
      else (0, none)

/-- The handler `websocket.onmessage` (websocket.js lines 19-28): the `catch` clause logs
whatever the `try` block throws. -/
def onmessage (parse : JSString → Except JSError JSValue) (onDownloaded : Callback)
    (eventData : JSString) : Handled :=
  match onmessageTry parse onDownloaded eventData with
  | (calls, some _error) => ⟨calls, true, none⟩
  | (calls, none) => ⟨calls, false, none⟩

/-- The results of `JSON.parse` on the message `{"downloaded": true}` and on any text
that is not JSON, such as `not json`; used to instantiate the `parse` parameter. -/
def parseDownloaded (text : JSString) : Except JSError JSValue :=
  if text = lit "\x7b\"downloaded\": true\x7d" then .ok (.object [(lit "downloaded", .bool true)])
  else .error .syntaxError

/-! ## Vocabulary of the statements -/

/-- The fetch failed to produce a success response: it was rejected, or its response has
a status outside 200-299. -/
def FetchFailed (fetched : FetchOutcome) : Prop :=
  ∀ response, fetched = .ok response → response.ok = false

/-- The state of a lifetime in which `getPublicConfig` has been called: `cached` is the
cached promise, in state `state`, one request was issued, and every returned promise is
another promise, resolved with the cached one. -/
def Lifetime.Cached (t : Lifetime) (cached : Nat) (state : PromiseState) : Prop :=
  t.world.configPromise = some cached ∧ t.world.requests = 1 ∧
    t.world.promises[cached]? = some state ∧
    ∀ p ∈ t.returned, p ≠ cached ∧ t.world.promises[p]? = some (.resolvedWith cached)

/-- The first occurrence of `pre` in `s` is directly followed by `content`, and `content`
runs to the end of `s` or up to a code unit `stop`. -/
def FirstOccurrence (pre content : JSString) (stop : CodeUnit) (s : JSString) : Prop :=
  ∃ before after, s = before ++ (pre ++ (content ++ after)) ∧
    includes pre (before ++ pre.dropLast) = false ∧ (after = [] ∨ after.head? = some stop)

/-- The lines of a text: its pieces between line feeds. -/
def lines : JSString → List JSString
  | [] => [[]]
  | c :: cs =>
    if c = 0x0A then [] :: lines cs
    else
      match lines cs with
      | [] => [[c]]
      | l :: ls => (c :: l) :: ls

/-! ## Strings and patterns -/

theorem includes_iff (needle s : JSString) : includes needle s = true ↔ needle <:+: s := by
  induction s with
  | nil => simp [includes]
  | cons c cs ih =>
    rw [includes, Bool.or_eq_true, ih, List.infix_cons_iff, List.isPrefixOf_iff_prefix]

theorem includes_eq_false_iff (needle s : JSString) :
    includes needle s = false ↔ ¬ needle <:+: s := by
  rw [← includes_iff]; simp

theorem matchAt_eq_none_of_not_pre (p : Pattern) (s : JSString) (h : ¬ p.pre <+: s) :
    p.matchAt s = none := by
  unfold Pattern.matchAt
  rw [if_neg]
  intro hp
  rw [List.isPrefixOf_iff_prefix] at hp
  exact h ((List.prefix_append p.pre p.head).trans hp)

theorem regexSearch_of_matchAt (p : Pattern) (s g : JSString) (h : p.matchAt s = some g) :
    regexSearch p s = some g := by
  cases s with
  | nil => simpa [regexSearch] using h
  | cons c cs => simp [regexSearch, h]

theorem regexSearch_skip (p : Pattern) (before s : JSString)
    (h : ∀ b₁ b₂, before = b₁ ++ b₂ → b₂ ≠ [] → p.matchAt (b₂ ++ s) = none) :
    regexSearch p (before ++ s) = regexSearch p s := by
  induction before with
  | nil => rfl
  | cons c cs ih =>
    have h0 : p.matchAt (c :: cs ++ s) = none := h [] (c :: cs) rfl (by simp)
    have h1 : regexSearch p (c :: cs ++ s) = regexSearch p (cs ++ s) := by
      simp only [List.cons_append] at h0 ⊢
      rw [regexSearch, h0]
    rw [h1]
    apply ih
    intro b₁ b₂ hb hne
    exact h (c :: b₁) b₂ (by rw [hb]; rfl) hne

theorem takeWhile_run (cls : CodeUnit → Bool) (run after : JSString) (stop : CodeUnit)
    (hrun : ∀ c ∈ run, cls c = true) (hstop : cls stop = false)
    (hafter : after = [] ∨ after.head? = some stop) :
    (run ++ after).takeWhile cls = run := by
  induction run with
  | nil =>
    rcases hafter with rfl | h
    · rfl
    · cases after with
      | nil => rfl
      | cons a as =>
        simp only [List.head?_cons, Option.some.injEq] at h
        subst h
        simp [List.takeWhile, hstop]
  | cons c cs ih =>
    have hc : cls c = true := hrun c (by simp)
    simp only [List.cons_append, List.takeWhile_cons, hc, if_true]
    rw [ih (fun d hd => hrun d (by simp [hd]))]

theorem matchAt_hit (p : Pattern) (run after : JSString) (stop : CodeUnit)
    (hne : run ≠ []) (hrun : ∀ c ∈ run, p.cls c = true) (hstop : p.cls stop = false)
    (hafter : after = [] ∨ after.head? = some stop) :
    p.matchAt (p.pre ++ (p.head ++ (run ++ after))) = some (p.head ++ run) := by
  unfold Pattern.matchAt
  have hp : (p.pre ++ p.head).isPrefixOf (p.pre ++ (p.head ++ (run ++ after))) = true := by
    rw [List.isPrefixOf_iff_prefix, ← List.append_assoc]
    exact List.prefix_append _ _
  rw [if_pos hp]
  have hd : (p.pre ++ (p.head ++ (run ++ after))).drop (p.pre ++ p.head).length = run ++ after := by
    rw [← List.append_assoc, List.drop_left]
  simp only [hd, takeWhile_run p.cls run after stop hrun hstop hafter]
  cases run with
  | nil => exact absurd rfl hne
  | cons c cs => simp

theorem not_pre_of_first (pre before b₁ b₂ rest : JSString)
    (hfirst : includes pre (before ++ pre.dropLast) = false)
    (hb : before = b₁ ++ b₂) (hne : b₂ ≠ []) : ¬ pre <+: b₂ ++ (pre ++ rest) := by
  intro hp
  rw [includes_eq_false_iff] at hfirst
  apply hfirst
  have hlen : pre.length ≤ (b₂ ++ pre.dropLast).length := by
    have : 0 < b₂.length := List.length_pos.mpr hne
    simp only [List.length_append, List.length_dropLast]
    omega
  have hq : b₂ ++ pre.dropLast <+: b₂ ++ (pre ++ rest) := by
    rw [List.prefix_append_right_inj]
    exact (List.dropLast_prefix pre).trans (List.prefix_append pre rest)
  have h3 : pre <+: b₂ ++ pre.dropLast := List.prefix_of_prefix_length_le hp hq hlen
  rw [hb, List.append_assoc]
  exact h3.isInfix.trans (List.suffix_append b₁ (b₂ ++ pre.dropLast)).isInfix

/-- A pattern finds the field that follows the first occurrence of its literal text. -/
theorem regexSearch_first (p : Pattern) (run s : JSString) (stop : CodeUnit)
    (hocc : FirstOccurrence p.pre (p.head ++ run) stop s)
    (hne : run ≠ []) (hrun : ∀ c ∈ run, p.cls c = true) (hstop : p.cls stop = false) :
    regexSearch p s = some (p.head ++ run) := by
  obtain ⟨before, after, rfl, hfirst, hafter⟩ := hocc
  rw [regexSearch_skip]
  · apply regexSearch_of_matchAt
    rw [List.append_assoc]
    exact matchAt_hit p run after stop hne hrun hstop hafter
  · intro b₁ b₂ hb hne2
    apply matchAt_eq_none_of_not_pre
    exact not_pre_of_first p.pre before b₁ b₂ _ hfirst hb hne2

theorem regexSearch_eq_none_of_forall (p : Pattern) (s : JSString)
    (h : ∀ before t, s = before ++ t → p.matchAt t = none) : regexSearch p s = none := by
  induction s with
  | nil =>
    rw [regexSearch]
    exact h [] [] rfl
  | cons c cs ih =>
    rw [regexSearch, h [] (c :: cs) rfl]
    exact ih (fun before t hs => h (c :: before) t (by rw [hs]; rfl))

theorem matchAt_eq_some (p : Pattern) (t g : JSString) (h : p.matchAt t = some g) :
    ∃ c rest, t = p.pre ++ p.head ++ c :: rest ∧ p.cls c = true := by
  unfold Pattern.matchAt at h
  split at h
  · rename_i hp
    rw [List.isPrefixOf_iff_prefix] at hp
    obtain ⟨r, rfl⟩ := hp
    rw [List.drop_left] at h
    cases r with
    | nil => simp at h
    | cons c rest =>
      refine ⟨c, rest, rfl, ?_⟩
      by_contra hc
      simp [List.takeWhile_cons, hc] at h
  · cases h

/-! ## `uploadFile`: the response of a finished request -/

theorem result_load (cb : Bool) (events : List ProgressEvent) (status : Nat)
    (body statusText : JSString) :
    (uploadFile cb events (.load status body statusText)).result = onLoad status body statusText :=
  rfl

theorem not_whiteSpace_of_mem_http (c : CodeUnit) (h : c ∈ lit "http") : isWhiteSpace c = false := by
  have h2 : lit "http" = [104, 116, 116, 112] := by decide
  rw [h2] at h
  simp only [List.mem_cons, List.mem_singleton, List.not_mem_nil, or_false] at h
  rcases h with rfl | rfl | rfl | rfl <;> decide

/-- C1, as amended. Let the body of a status-200 response hold the four fields, each
directly after the first occurrence of its literal text and running to the end of its
line: a download URL `http…` free of white space, with at least one character after
`http`, in which the first `/download/` is followed by a non-empty segment ending at the
next `/` or at the end of the URL; a non-empty cURL command free of line terminators; a
non-empty original name; a non-empty file size. Then `uploadFile` resolves to the success
result made of exactly these four texts, with the segment as `fileID`. -/
theorem uploadFile_parses_fields (cb : Bool) (events : List ProgressEvent)
    (body statusText rest cmd name size seg : JSString)
    (hurl : FirstOccurrence (lit "Download URL: ") (lit "http" ++ rest) 0x0A body)
    (hrest : rest ≠ []) (hrest_ws : ∀ c ∈ rest, isWhiteSpace c = false)
    (hcmd : FirstOccurrence (lit "cURL command: ") cmd 0x0A body)
    (hcmd_ne : cmd ≠ []) (hcmd_lt : ∀ c ∈ cmd, isLineTerminator c = false)
    (hname : FirstOccurrence (lit "Original name: ") name 0x0A body)
    (hname_ne : name ≠ []) (hname_lf : 0x0A ∉ name)
    (hsize : FirstOccurrence (lit "File size: ") size 0x0A body)
    (hsize_ne : size ≠ []) (hsize_lf : 0x0A ∉ size)
    (hseg : FirstOccurrence (lit "/download/") seg 0x2F (lit "http" ++ rest))
    (hseg_ne : seg ≠ []) (hseg_slash : 0x2F ∉ seg) :
    (uploadFile cb events (.load 200 body statusText)).result =
      .success
        { fileName := name, fileSize := size, downloadURL := lit "http" ++ rest,
          curlCommand := cmd, fileID := some seg } := by
  have h1 : regexSearch urlPattern body = some (lit "http" ++ rest) :=
    regexSearch_first urlPattern rest body 0x0A hurl hrest
      (fun c hc => by simp [urlPattern, hrest_ws c hc]) (by decide)
  have h2 : regexSearch curlPattern body = some cmd :=
    regexSearch_first curlPattern cmd body 0x0A hcmd hcmd_ne
      (fun c hc => by simp [curlPattern, hcmd_lt c hc]) (by decide)
  have h3 : regexSearch namePattern body = some name :=
    regexSearch_first namePattern name body 0x0A hname hname_ne
      (fun c hc => by
        have : c ≠ 10 := fun h => hname_lf (h ▸ hc)
        simp [namePattern, this]) (by decide)
  have h4 : regexSearch sizePattern body = some size :=
    regexSearch_first sizePattern size body 0x0A hsize hsize_ne
      (fun c hc => by
        have : c ≠ 10 := fun h => hsize_lf (h ▸ hc)
        simp [sizePattern, this]) (by decide)
  have h5 : regexSearch fileIDPattern (lit "http" ++ rest) = some seg :=
    regexSearch_first fileIDPattern seg _ 0x2F hseg hseg_ne
      (fun c hc => by
        have hne : c ≠ 47 := fun h => hseg_slash (h ▸ hc)
        have hmem : c ∈ lit "http" ++ rest := by
          obtain ⟨before, after, heq, -, -⟩ := hseg
          rw [heq]
          simp [hc]
        have hws : isWhiteSpace c = false := by
          rcases List.mem_append.mp hmem with h | h
          · exact not_whiteSpace_of_mem_http c h
          · exact hrest_ws c h
        simp [fileIDPattern, hne, hws]) (by decide)
  rw [result_load]
  simp only [onLoad, if_true, h1, h2, h3, h4, h5, Option.getD_some]

/-- The amended C1 at the response the server sends for a file `a b.txt`. -/
theorem uploadFile_parses_fields_witness :
    (uploadFile true []
      (.load 200
        (lit "Upload successful!\nDownload URL: http://h/download/abc\ncURL command: curl -O http://h/download/abc\nOriginal name: a b.txt\nFile size: 3 B\n")
        (lit "OK"))).result =
      .success
        { fileName := lit "a b.txt", fileSize := lit "3 B",
          downloadURL := lit "http" ++ lit "://h/download/abc",
          curlCommand := lit "curl -O http://h/download/abc", fileID := some (lit "abc") } :=
  uploadFile_parses_fields true [] _ (lit "OK") (lit "://h/download/abc")
    (lit "curl -O http://h/download/abc") (lit "a b.txt") (lit "3 B") (lit "abc")
    ⟨lit "Upload successful!\n",
      lit "\ncURL command: curl -O http://h/download/abc\nOriginal name: a b.txt\nFile size: 3 B\n",
      by decide, by decide, by decide⟩
    (by decide) (by decide)
    ⟨lit "Upload successful!\nDownload URL: http://h/download/abc\n",
      lit "\nOriginal name: a b.txt\nFile size: 3 B\n", by decide, by decide, by decide⟩
    (by decide) (by decide)
    ⟨lit "Upload successful!\nDownload URL: http://h/download/abc\ncURL command: curl -O http://h/download/abc\n",
      lit "\nFile size: 3 B\n", by decide, by decide, by decide⟩
    (by decide) (by decide)
    ⟨lit "Upload successful!\nDownload URL: http://h/download/abc\ncURL command: curl -O http://h/download/abc\nOriginal name: a b.txt\n",
      lit "\n", by decide, by decide, by decide⟩
    (by decide) (by decide)
    ⟨lit "http://h", [], by decide, by decide, by decide⟩
    (by decide) (by decide)

/-- C1, as stated, fails. (1) A body holding the four lines, for an uploaded file named
`File size: big.txt`: the reported `fileSize` is `big.txt`, not the `3 B` of the
`File size:` line. (2) A body holding the four lines with a download URL that does not
begin with `http`: the result is the parse failure, not a success. -/
theorem uploadFile_fields_counterexample :
    (lit "Download URL: http://h/download/abc" ∈
        lines (lit "Download URL: http://h/download/abc\ncURL command: curl -O http://h/download/abc\nOriginal name: File size: big.txt\nFile size: 3 B\n") ∧
      lit "cURL command: curl -O http://h/download/abc" ∈
        lines (lit "Download URL: http://h/download/abc\ncURL command: curl -O http://h/download/abc\nOriginal name: File size: big.txt\nFile size: 3 B\n") ∧
      lit "Original name: File size: big.txt" ∈
        lines (lit "Download URL: http://h/download/abc\ncURL command: curl -O http://h/download/abc\nOriginal name: File size: big.txt\nFile size: 3 B\n") ∧
      lit "File size: 3 B" ∈
        lines (lit "Download URL: http://h/download/abc\ncURL command: curl -O http://h/download/abc\nOriginal name: File size: big.txt\nFile size: 3 B\n") ∧
      (uploadFile true []
        (.load 200
          (lit "Download URL: http://h/download/abc\ncURL command: curl -O http://h/download/abc\nOriginal name: File size: big.txt\nFile size: 3 B\n")
          (lit "OK"))).result =
        .success
          { fileName := lit "File size: big.txt", fileSize := lit "big.txt",
            downloadURL := lit "http://h/download/abc",
            curlCommand := lit "curl -O http://h/download/abc", fileID := some (lit "abc") }) ∧
    (lit "Download URL: ftp://h/download/abc" ∈
        lines (lit "Download URL: ftp://h/download/abc\ncURL command: curl -O ftp://h/download/abc\nOriginal name: a.txt\nFile size: 3 B\n") ∧
      lit "cURL command: curl -O ftp://h/download/abc" ∈
        lines (lit "Download URL: ftp://h/download/abc\ncURL command: curl -O ftp://h/download/abc\nOriginal name: a.txt\nFile size: 3 B\n") ∧
      lit "Original name: a.txt" ∈
        lines (lit "Download URL: ftp://h/download/abc\ncURL command: curl -O ftp://h/download/abc\nOriginal name: a.txt\nFile size: 3 B\n") ∧
      lit "File size: 3 B" ∈
        lines (lit "Download URL: ftp://h/download/abc\ncURL command: curl -O ftp://h/download/abc\nOriginal name: a.txt\nFile size: 3 B\n") ∧
      (uploadFile true []
        (.load 200
          (lit "Download URL: ftp://h/download/abc\ncURL command: curl -O ftp://h/download/abc\nOriginal name: a.txt\nFile size: 3 B\n")
          (lit "OK"))).result =
        .failure (lit "Upload successful but couldn't parse response") none) := by
  refine ⟨⟨?_, ?_, ?_, ?_, ?_⟩, ⟨?_, ?_, ?_, ?_, ?_⟩⟩ <;> decide

/-- C3. When the download URL cannot be located in the body of a status-200 response,
that is, when every occurrence of the text `Download URL: http` in it is followed by
white space or by the end of the body (in particular when the body has no
`Download URL:` line at all), `uploadFile` resolves to the failure result with the fixed
message, whatever else the body holds. -/
theorem uploadFile_url_missing (cb : Bool) (events : List ProgressEvent)
    (body statusText : JSString)
    (h : ∀ before after c, body = before ++ (lit "Download URL: http" ++ c :: after) →
      isWhiteSpace c = true) :
    (uploadFile cb events (.load 200 body statusText)).result =
      .failure (lit "Upload successful but couldn't parse response") none := by
  have hpat : urlPattern.pre ++ urlPattern.head = lit "Download URL: http" := by decide
  have h1 : regexSearch urlPattern body = none := by
    apply regexSearch_eq_none_of_forall
    intro before t hbt
    by_contra hne
    obtain ⟨g, hg⟩ := Option.ne_none_iff_exists'.mp hne
    obtain ⟨c, rest, ht, hc⟩ := matchAt_eq_some urlPattern t g hg
    rw [hpat] at ht
    have hws := h before rest c (by rw [hbt, ht])
    simp [urlPattern, hws] at hc
  rw [result_load]
  simp only [onLoad, if_true, h1]

/-- C3 at a body that holds the three other fields and no `Download URL:` line. -/
theorem uploadFile_url_missing_witness :
    (uploadFile true []
      (.load 200 (lit "cURL command: curl -O x\nOriginal name: a.txt\nFile size: 3 B\n")
        (lit "OK"))).result =
      .failure (lit "Upload successful but couldn't parse response") none :=
  uploadFile_url_missing true [] _ (lit "OK") (fun before after c hb =>
    absurd
      ((includes_iff (lit "Download URL: http")
        (lit "cURL command: curl -O x\nOriginal name: a.txt\nFile size: 3 B\n")).mpr
        ⟨before, c :: after, by rw [List.append_assoc]; exact hb.symm⟩)
      (by decide))

set_option maxRecDepth 20000

/-- C2, as stated, fails: for a 500 response with body `disk full` and a line feed, the
message is neither the raw body nor the status text; and for a 500 response whose
300-character body is 150 letters and 150 spaces, the message holds the letters, not the
status text. -/
theorem uploadFile_raw_body_counterexample :
    (uploadFile true []
        (.load 500 (lit "disk full\n") (lit "Internal Server Error"))).result =
      .failure (lit "Upload failed: disk full") none ∧
    (uploadFile true []
        (.load 500 (lit "disk full\n") (lit "Internal Server Error"))).result ≠
      .failure (lit "disk full\n") none ∧
    (List.replicate 150 0x78 ++ List.replicate 150 0x20 : JSString).length = 300 ∧
    (uploadFile true []
        (.load 500 (List.replicate 150 0x78 ++ List.replicate 150 0x20)
          (lit "Internal Server Error"))).result =
      .failure (lit "Upload failed: " ++ List.replicate 150 0x78) none := by
  refine ⟨?_, ?_, ?_, ?_⟩ <;> decide

/-- C2, as amended. For a final status other than 200 and 401, `uploadFile` resolves to
a failure result whose message is `Upload failed: ` followed by the response body with
its leading and trailing white space removed, unless that trimmed body is empty, exceeds
200 code units or contains `<html`, in which case `Upload failed: ` is followed by the
status text. -/
theorem uploadFile_other_status (cb : Bool) (events : List ProgressEvent) (status : Nat)
    (body statusText : JSString) (h200 : status ≠ 200) (h401 : status ≠ 401) :
    (uploadFile cb events (.load status body statusText)).result =
      .failure
        (lit "Upload failed: " ++
          if trim body = [] ∨ 200 < (trim body).length ∨ includes (lit "<html") (trim body) = true
          then statusText else trim body)
        none := by
  rw [result_load]
  simp only [onLoad, if_neg h200, if_neg h401]
  by_cases he : trim body = []
  · simp [he]
  · by_cases hl : 200 < (trim body).length
    · simp [he, hl]
    · by_cases hi : includes (lit "<html") (trim body) = true
      · simp [he, hi]
      · simp [he, hl, hi]

/-- The amended C2 at a 500 response with a short plain-text body. -/
theorem uploadFile_other_status_witness :
    (uploadFile true [] (.load 500 (lit " disk full\n") (lit "Internal Server Error"))).result =
      .failure
        (lit "Upload failed: " ++
          if trim (lit " disk full\n") = [] ∨ 200 < (trim (lit " disk full\n")).length ∨
            includes (lit "<html") (trim (lit " disk full\n")) = true
          then lit "Internal Server Error" else trim (lit " disk full\n"))
        none :=
  uploadFile_other_status true [] 500 (lit " disk full\n") (lit "Internal Server Error")
    (by decide) (by decide)

/-- C10. For a final status other than 200 and 401, the error of the failure result is
`Upload failed: ` followed by the status text or by the trimmed body, and by the trimmed
body only when it is non-empty, at most 200 code units long and free of `<html`; so
what follows the fixed text, when it is not the status text, is at most 200 code units
long and does not contain `<html`. -/
theorem uploadFile_error_message (cb : Bool) (events : List ProgressEvent) (status : Nat)
    (body statusText : JSString) (h200 : status ≠ 200) (h401 : status ≠ 401) :
    ∃ tail : JSString,
      (uploadFile cb events (.load status body statusText)).result =
        .failure (lit "Upload failed: " ++ tail) none ∧
      (tail = statusText ∨
        (tail = trim body ∧ trim body ≠ [] ∧ (trim body).length ≤ 200 ∧
          includes (lit "<html") (trim body) = false)) ∧
      (tail ≠ statusText → tail.length ≤ 200 ∧ includes (lit "<html") tail = false) := by
  rw [result_load]
  simp only [onLoad, if_neg h200, if_neg h401]
  by_cases he : trim body = []
  · exact ⟨statusText, by simp [he], Or.inl rfl, fun h => absurd rfl h⟩
  · by_cases hl : 200 < (trim body).length
    · exact ⟨statusText, by simp [he, hl], Or.inl rfl, fun h => absurd rfl h⟩
    · by_cases hi : includes (lit "<html") (trim body) = true
      · exact ⟨statusText, by simp [he, hi], Or.inl rfl, fun h => absurd rfl h⟩
      · have hi2 : includes (lit "<html") (trim body) = false := by simpa using hi
        exact ⟨trim body, by simp [he, hl, hi2], Or.inr ⟨rfl, he, by omega, hi2⟩,
          fun _ => ⟨by omega, hi2⟩⟩

/-- C10 at a 503 response with a short plain-text body. -/
theorem uploadFile_error_message_witness :
    ∃ tail : JSString,
      (uploadFile true [] (.load 503 (lit "try later\n") (lit "Service Unavailable"))).result =
        .failure (lit "Upload failed: " ++ tail) none ∧
      (tail = lit "Service Unavailable" ∨
        (tail = trim (lit "try later\n") ∧ trim (lit "try later\n") ≠ [] ∧
          (trim (lit "try later\n")).length ≤ 200 ∧
          includes (lit "<html") (trim (lit "try later\n")) = false)) ∧
      (tail ≠ lit "Service Unavailable" →
        tail.length ≤ 200 ∧ includes (lit "<html") tail = false) :=
  uploadFile_error_message true [] 503 (lit "try later\n") (lit "Service Unavailable")
    (by decide) (by decide)

/-! ## `getPublicConfig` -/

theorem run_append (events : List Event) (e : Event) :
    run (events ++ [e]) = (run events).step e := by
  simp [run, List.foldl_append]

theorem callCount_append (events : List Event) (e : Event) :
    callCount (events ++ [e]) = callCount events + callCount [e] := by
  induction events with
  | nil => simp [callCount]
  | cons a as ih =>
    cases a with
    | call =>
      show callCount (as ++ [e]) + 1 = callCount as + 1 + callCount [e]
      omega
    | settle fetched => exact ih

theorem fetchConfig_ok (fetched : FetchOutcome) :
    ∃ value, fetchConfig fetched = .ok value ∧ (FetchFailed fetched → value = defaultConfig) := by
  rcases fetched with reason | response
  · exact ⟨defaultConfig, rfl, fun _ => rfl⟩
  · by_cases hok : response.ok = true
    · rcases hjson : response.json with reason | value
      · refine ⟨defaultConfig, ?_, fun _ => rfl⟩
        simp [fetchConfig, hok, hjson, tryCatch, tryCatchThe, MonadExceptOf.tryCatch,
          Except.tryCatch, bind, Except.bind, pure, Except.pure]
      · refine ⟨value, ?_, fun h => ?_⟩
        · simp [fetchConfig, hok, hjson, tryCatch, tryCatchThe, MonadExceptOf.tryCatch,
            Except.tryCatch, bind, Except.bind, pure, Except.pure]
        · have := h response rfl
          rw [hok] at this
          cases this
    · refine ⟨defaultConfig, ?_, fun _ => rfl⟩
      simp [fetchConfig, hok, tryCatch, tryCatchThe, MonadExceptOf.tryCatch,
        Except.tryCatch, bind, Except.bind, pure, Except.pure]

theorem step_call_init : (Lifetime.mk World.init []).step .call =
    ⟨⟨some 1, [.resolvedWith 1, .pending], 1⟩, [0]⟩ := rfl

theorem step_settle_init (fetched : FetchOutcome) :
    (Lifetime.mk World.init []).step (.settle fetched) = ⟨World.init, []⟩ := rfl

theorem cached_first_call : ((Lifetime.mk World.init []).step .call).Cached 1 .pending := by
  rw [step_call_init]
  refine ⟨rfl, rfl, rfl, ?_⟩
  intro p hp
  simp only [List.mem_singleton] at hp
  subst hp
  exact ⟨by decide, rfl⟩

theorem cached_lt (t : Lifetime) (cached : Nat) (state : PromiseState)
    (h : t.Cached cached state) : cached < t.world.promises.length := by
  obtain ⟨-, -, h3, -⟩ := h
  by_contra hlt
  rw [List.getElem?_eq_none (by omega)] at h3
  cases h3

theorem cached_step_call (t : Lifetime) (cached : Nat) (state : PromiseState)
    (h : t.Cached cached state) : (t.step .call).Cached cached state := by
  have hlt := cached_lt t cached state h
  obtain ⟨h1, h2, h3, h4⟩ := h
  have hw : (getPublicConfig t.world) =
      (t.world.promises.length,
        ⟨t.world.configPromise,
          (t.world.promises ++ [PromiseState.pending]).set t.world.promises.length
            (PromiseState.resolvedWith cached),
          t.world.requests⟩) := by
    simp [getPublicConfig, h1]
  simp only [Lifetime.step, hw]
  refine ⟨h1, h2, ?_, ?_⟩
  · simp only
    rw [List.getElem?_set_ne (by omega), List.getElem?_append_left hlt]
    exact h3
  · intro p hp
    simp only [List.mem_append, List.mem_singleton] at hp
    rcases hp with hp | rfl
    · obtain ⟨hne, hp2⟩ := h4 p hp
      have hplt : p < t.world.promises.length := by
        by_contra hcon
        rw [List.getElem?_eq_none (by omega)] at hp2
        cases hp2
      refine ⟨hne, ?_⟩
      simp only
      rw [List.getElem?_set_ne (by omega), List.getElem?_append_left hplt]
      exact hp2
    · refine ⟨by omega, ?_⟩
      simp only
      rw [List.getElem?_set_self]
      simp

theorem cached_step_settle_pending (t : Lifetime) (cached : Nat) (fetched : FetchOutcome)
    (h : t.Cached cached .pending) :
    (t.step (.settle fetched)).Cached cached (PromiseState.ofResult (fetchConfig fetched)) := by
  have hlt := cached_lt t cached .pending h
  obtain ⟨h1, h2, h3, h4⟩ := h
  have hw : fetchSettles fetched t.world =
      ⟨t.world.configPromise,
        t.world.promises.set cached (PromiseState.ofResult (fetchConfig fetched)),
        t.world.requests⟩ := by
    simp [fetchSettles, h1, h3]
  simp only [Lifetime.step, hw]
  refine ⟨h1, h2, ?_, ?_⟩
  · simp only
    rw [List.getElem?_set_self]
    simp [hlt]
  · intro p hp
    obtain ⟨hne, hp2⟩ := h4 p hp
    refine ⟨hne, ?_⟩
    simp only
    rw [List.getElem?_set_ne (Ne.symm hne)]
    exact hp2

theorem cached_step_settle_done (t : Lifetime) (cached : Nat) (state : PromiseState)
    (fetched : FetchOutcome) (h : t.Cached cached state) (hs : state ≠ .pending) :
    (t.step (.settle fetched)).Cached cached state := by
  obtain ⟨h1, h2, h3, h4⟩ := h
  have hw : fetchSettles fetched t.world = t.world := by
    simp only [fetchSettles, h1, h3]
    cases state with
    | pending => exact absurd rfl hs
    | fulfilled v => rfl
    | rejected r => rfl
    | resolvedWith q => rfl
  simp only [Lifetime.step, hw]
  exact ⟨h1, h2, h3, h4⟩

theorem ofResult_fetchConfig (fetched : FetchOutcome) :
    ∃ value, PromiseState.ofResult (fetchConfig fetched) = .fulfilled value ∧
      (FetchFailed fetched → value = defaultConfig) := by
  obtain ⟨value, h, hd⟩ := fetchConfig_ok fetched
  exact ⟨value, by rw [h]; rfl, hd⟩

/-- Every lifetime with at least one call has a cached promise that is pending or
fulfilled; a lifetime without a call is still in the initial state. -/
theorem run_cached (events : List Event) :
    (callCount events = 0 ∧ run events = ⟨World.init, []⟩) ∨
    (1 ≤ callCount events ∧ ∃ cached state, (run events).Cached cached state ∧
      (state = .pending ∨ ∃ value, state = .fulfilled value)) := by
  induction events using List.reverseRecOn with
  | nil => exact Or.inl ⟨rfl, rfl⟩
  | append_singleton es e ih =>
    rw [run_append, callCount_append]
    rcases ih with ⟨h0, hinit⟩ | ⟨h1, cached, state, hc, hstate⟩
    · cases e with
      | call =>
        refine Or.inr ⟨by simp [callCount], 1, .pending, ?_, Or.inl rfl⟩
        rw [hinit]
        exact cached_first_call
      | settle fetched =>
        refine Or.inl ⟨by simp [callCount, h0], ?_⟩
        rw [hinit]
        rfl
    · refine Or.inr ⟨by omega, ?_⟩
      cases e with
      | call => exact ⟨cached, state, cached_step_call _ _ _ hc, hstate⟩
      | settle fetched =>
        rcases hstate with rfl | ⟨value, rfl⟩
        · obtain ⟨value, hv, -⟩ := ofResult_fetchConfig fetched
          exact ⟨cached, _, cached_step_settle_pending _ _ fetched hc, Or.inr ⟨value, hv⟩⟩
        · exact ⟨cached, _, cached_step_settle_done _ _ _ fetched hc (by simp), Or.inr ⟨value, rfl⟩⟩

theorem returned_length (events : List Event) :
    (run events).returned.length = callCount events := by
  induction events using List.reverseRecOn with
  | nil => rfl
  | append_singleton es e ih =>
    rw [run_append, callCount_append]
    cases e with
    | call => simp [Lifetime.step, ih, callCount]
    | settle fetched => simp [Lifetime.step, ih, callCount]

theorem settled_of_cached (t : Lifetime) (cached : Nat) (state : PromiseState)
    (h : t.Cached cached state) (p : Nat) (hp : p ∈ t.returned) :
    t.world.settled p =
      match state with
      | .fulfilled value => some (.ok value)
      | .rejected reason => some (.error reason)
      | _ => none := by
  obtain ⟨-, -, h3, h4⟩ := h
  obtain ⟨-, hp2⟩ := h4 p hp
  simp only [World.settled, hp2, h3]
  cases state <;> rfl

/-- C4, as stated, fails: two calls return two different promises, and neither is the
cached promise. -/
theorem getPublicConfig_same_promise_counterexample :
    (run [.call, .call]).returned = [0, 2] ∧
      (run [.call, .call]).world.configPromise = some 1 ∧
      (run [.call, .call]).world.requests = 1 := by
  refine ⟨?_, ?_, ?_⟩ <;> rfl

/-- C4, as amended. In every module lifetime with `N ≥ 1` calls of `getPublicConfig`,
made before or after the request settles, exactly one request to `/config` is issued,
the `N` calls return `N` promises that are all resolved with the one cached promise, and
so any two of them settle to identical values. -/
theorem getPublicConfig_memoized (events : List Event) (hcalls : 1 ≤ callCount events) :
    (run events).world.requests = 1 ∧
    (run events).returned.length = callCount events ∧
    ∃ cached, (run events).world.configPromise = some cached ∧
      (∀ p ∈ (run events).returned,
        (run events).world.promises[p]? = some (.resolvedWith cached)) ∧
      ∀ p ∈ (run events).returned, ∀ q ∈ (run events).returned,
        (run events).world.settled p = (run events).world.settled q := by
  rcases run_cached events with ⟨h0, -⟩ | ⟨-, cached, state, hc, -⟩
  · omega
  · refine ⟨hc.2.1, returned_length events, cached, hc.1, fun p hp => (hc.2.2.2 p hp).2, ?_⟩
    intro p hp q hq
    rw [settled_of_cached _ cached state hc p hp, settled_of_cached _ cached state hc q hq]

/-- The amended C4 at two calls before the request fails and one call after. -/
theorem getPublicConfig_memoized_witness :
    1 ≤ callCount [.call, .call, .settle (.error .other), .call] ∧
    (run [.call, .call, .settle (.error .other), .call]).world.requests = 1 ∧
    (run [.call, .call, .settle (.error .other), .call]).returned.length =
      callCount [.call, .call, .settle (.error .other), .call] ∧
    ∃ cached, (run [.call, .call, .settle (.error .other), .call]).world.configPromise =
        some cached ∧
      (∀ p ∈ (run [.call, .call, .settle (.error .other), .call]).returned,
        (run [.call, .call, .settle (.error .other), .call]).world.promises[p]? =
          some (.resolvedWith cached)) ∧
      ∀ p ∈ (run [.call, .call, .settle (.error .other), .call]).returned,
        ∀ q ∈ (run [.call, .call, .settle (.error .other), .call]).returned,
        (run [.call, .call, .settle (.error .other), .call]).world.settled p =
          (run [.call, .call, .settle (.error .other), .call]).world.settled q :=
  ⟨by decide, getPublicConfig_memoized _ (by decide)⟩

theorem run_calls_cached (calls : Nat) :
    ∃ cached, (run (List.replicate (calls + 1) Event.call)).Cached cached .pending := by
  induction calls with
  | zero => exact ⟨1, cached_first_call⟩
  | succ n ih =>
    obtain ⟨cached, hc⟩ := ih
    refine ⟨cached, ?_⟩
    rw [List.replicate_succ', run_append]
    exact cached_step_call _ _ _ hc

theorem run_later_cached (events later : List Event) (cached : Nat) (value : JSValue)
    (h : (run events).Cached cached (.fulfilled value)) :
    (run (events ++ later)).Cached cached (.fulfilled value) := by
  induction later using List.reverseRecOn with
  | nil => simpa using h
  | append_singleton es e ih =>
    rw [← List.append_assoc, run_append]
    cases e with
    | call => exact cached_step_call _ _ _ ih
    | settle fetched => exact cached_step_settle_done _ _ _ fetched ih (by simp)

/-- C5. Once the request to `/config` has settled, in whichever way, every promise
returned by `getPublicConfig`, before or after, is fulfilled, not rejected; and when the
request was rejected or answered with a status outside 200-299, it is fulfilled with the
default `{isDefaultPassword: true, fileExpiryMinutes: 10, maxFileSizeMB: 100}`. -/
theorem getPublicConfig_never_rejects (calls : Nat) (fetched : FetchOutcome)
    (later : List Event) (p : Nat)
    (hp : p ∈ (run (List.replicate (calls + 1) .call ++ .settle fetched :: later)).returned) :
    ∃ value,
      (run (List.replicate (calls + 1) .call ++ .settle fetched :: later)).world.settled p =
        some (.ok value) ∧
      (FetchFailed fetched → value = defaultConfig) := by
  obtain ⟨cached, hc⟩ := run_calls_cached calls
  obtain ⟨value, hv, hd⟩ := ofResult_fetchConfig fetched
  have h1 := cached_step_settle_pending _ cached fetched hc
  rw [hv, ← run_append] at h1
  have h2 := run_later_cached _ later cached value h1
  rw [List.append_assoc, List.singleton_append] at h2
  refine ⟨value, ?_, hd⟩
  rw [settled_of_cached _ cached _ h2 p hp]

/-- C5 at one call whose request fails at the network level. -/
theorem getPublicConfig_never_rejects_witness :
    (run [.call, .settle (.error .other)]).world.settled 0 = some (.ok defaultConfig) := by
  obtain ⟨value, h1, h2⟩ :=
    getPublicConfig_never_rejects 0 (.error .other) [] 0 (by decide)
  have h3 : value = defaultConfig := h2 (fun response h => by cases h)
  rw [h3] at h1
  exact h1

/-! ## `validatePassword` -/

/-- C6. `validatePassword` always fulfils, with a boolean, and the boolean is `true`
exactly when a response was received and its status is in the range 200-299. -/
theorem validatePassword_true_iff (login : JSString → FetchOutcome) (password : JSString) :
    ∃ b, validatePassword login password = .ok b ∧
      (b = true ↔
        ∃ response, login password = .ok response ∧
          200 ≤ response.status ∧ response.status ≤ 299) := by
  rcases h : login password with reason | response
  · refine ⟨false, ?_, ?_⟩
    · simp [validatePassword, h, tryCatch, tryCatchThe, MonadExceptOf.tryCatch,
        Except.tryCatch, bind, Except.bind, pure, Except.pure]
    · simp
  · refine ⟨response.ok, ?_, ?_⟩
    · simp [validatePassword, h, tryCatch, tryCatchThe, MonadExceptOf.tryCatch,
        Except.tryCatch, bind, Except.bind, pure, Except.pure]
    · simp [Response.ok]

/-! ## `connectToFileNotifications` -/

/-- C7. For a message whose text parses to a value with a truthy `downloaded` property,
the handler calls `onDownloaded`, when one was given, exactly once; for a message whose
text does not parse, it does not call `onDownloaded`; and in both cases no exception
leaves the handler. -/
theorem onmessage_downloaded (parse : JSString → Except JSError JSValue)
    (onDownloaded : Callback) (text : JSString) :
    (∀ data value, parse text = .ok data →
      getProp data (lit "downloaded") = .ok (some value) → truthy (some value) = true →
      onDownloaded ≠ .absent →
      (onmessage parse onDownloaded text).calls = 1 ∧
        (onmessage parse onDownloaded text).thrown = none) ∧
    (∀ e, parse text = .error e →
      (onmessage parse onDownloaded text).calls = 0 ∧
        (onmessage parse onDownloaded text).thrown = none) := by
  constructor
  · intro data value hparse hprop htruthy hcb
    cases onDownloaded with
    | absent => exact absurd rfl hcb
    | returns => simp [onmessage, onmessageTry, hparse, hprop, htruthy]
    | throws e => simp [onmessage, onmessageTry, hparse, hprop, htruthy]
  · intro e hparse
    simp [onmessage, onmessageTry, hparse]

/-- C7 at the messages `{"downloaded": true}` and `not json`. -/
theorem onmessage_downloaded_witness :
    ((onmessage parseDownloaded .returns (lit "\x7b\"downloaded\": true\x7d")).calls = 1 ∧
      (onmessage parseDownloaded .returns (lit "\x7b\"downloaded\": true\x7d")).thrown = none) ∧
    ((onmessage parseDownloaded .returns (lit "not json")).calls = 0 ∧
      (onmessage parseDownloaded .returns (lit "not json")).thrown = none) :=
  ⟨(onmessage_downloaded parseDownloaded .returns (lit "\x7b\"downloaded\": true\x7d")).1
      (.object [(lit "downloaded", .bool true)]) (.bool true) rfl rfl rfl (by decide),
    (onmessage_downloaded parseDownloaded .returns (lit "not json")).2 .syntaxError rfl⟩

/-! ## Numbers: rounding to binary64 -/

theorem roundTiesToEven_floor_le (q : ℚ) : ⌊q⌋ ≤ roundTiesToEven q := by
  unfold roundTiesToEven
  split_ifs <;> omega

theorem roundTiesToEven_le_floor_add_one (q : ℚ) : roundTiesToEven q ≤ ⌊q⌋ + 1 := by
  unfold roundTiesToEven
  split_ifs <;> omega

theorem roundTiesToEven_intCast (n : ℤ) : roundTiesToEven (n : ℚ) = n := by
  simp [roundTiesToEven]

theorem roundTiesToEven_sub_le (q : ℚ) : |(roundTiesToEven q : ℚ) - q| ≤ 1 / 2 := by
  have h1 := Int.floor_le q
  have h2 := Int.lt_floor_add_one q
  rw [abs_le]
  unfold roundTiesToEven
  split_ifs with ha hb hc
  · constructor <;> linarith
  · push_cast; constructor <;> linarith
  · constructor <;> linarith
  · push_cast; constructor <;> linarith

theorem roundTiesToEven_le_int (q : ℚ) (n : ℤ) (h : q ≤ n) : roundTiesToEven q ≤ n := by
  rcases eq_or_lt_of_le h with rfl | hlt
  · rw [roundTiesToEven_intCast]
  · have : ⌊q⌋ < n := Int.floor_lt.mpr hlt
    have := roundTiesToEven_le_floor_add_one q
    omega

theorem int_le_roundTiesToEven (q : ℚ) (n : ℤ) (h : (n : ℚ) ≤ q) : n ≤ roundTiesToEven q :=
  (Int.le_floor.mpr h).trans (roundTiesToEven_floor_le q)

theorem roundTiesToEven_mono (q r : ℚ) (h : q ≤ r) : roundTiesToEven q ≤ roundTiesToEven r := by
  rcases eq_or_lt_of_le (Int.floor_mono h) with heq | hlt
  · unfold roundTiesToEven
    rw [← heq]
    split_ifs <;> first | omega | (exfalso; linarith)
  · have h1 := roundTiesToEven_le_floor_add_one q
    have h2 := roundTiesToEven_floor_le r
    omega

/-- The scaled significand of a positive value lies in `[2^52, 2^53)`. -/
theorem significand_bounds (x : ℚ) (hx : 0 < x) :
    (2 : ℚ) ^ (52 : ℤ) ≤ x * 2 ^ (52 - Int.log 2 x) ∧
      x * 2 ^ (52 - Int.log 2 x) < (2 : ℚ) ^ (53 : ℤ) := by
  have h1 : ((2 : ℕ) : ℚ) ^ Int.log 2 x ≤ x := Int.zpow_log_le_self (by norm_num) hx
  have h2 : x < ((2 : ℕ) : ℚ) ^ (Int.log 2 x + 1) := Int.lt_zpow_succ_log_self (by norm_num) x
  push_cast at h1 h2
  have hpos : (0 : ℚ) < 2 ^ (52 - Int.log 2 x) := by positivity
  constructor
  · have : (2 : ℚ) ^ (52 : ℤ) = 2 ^ Int.log 2 x * 2 ^ (52 - Int.log 2 x) := by
      rw [← zpow_add₀ (by norm_num : (2 : ℚ) ≠ 0)]
      congr 1
      ring
    rw [this]
    exact mul_le_mul_of_nonneg_right h1 hpos.le
  · have : (2 : ℚ) ^ (53 : ℤ) = 2 ^ (Int.log 2 x + 1) * 2 ^ (52 - Int.log 2 x) := by
      rw [← zpow_add₀ (by norm_num : (2 : ℚ) ≠ 0)]
      congr 1
      ring
    rw [this]
    exact mul_lt_mul_of_pos_right h2 hpos

theorem toDouble_zero : toDouble 0 = 0 := by simp [toDouble]

theorem toDouble_of_pos (x : ℚ) (hx : 0 < x) :
    toDouble x = (roundTiesToEven (x * 2 ^ (52 - Int.log 2 x)) : ℚ) * 2 ^ (Int.log 2 x - 52) := by
  unfold toDouble
  rw [if_neg hx.ne', abs_of_pos hx]

theorem scale_cancel (x : ℚ) (e : ℤ) : x * 2 ^ (52 - e) * 2 ^ (e - 52) = x := by
  rw [mul_assoc, ← zpow_add₀ (by norm_num : (2 : ℚ) ≠ 0)]
  have : (52 - e) + (e - 52) = 0 := by ring
  rw [this, zpow_zero, mul_one]

/-- Rounding to binary64 has relative error at most `2^-53`. -/
theorem toDouble_sub_le (x : ℚ) (hx : 0 ≤ x) : |toDouble x - x| ≤ x / 2 ^ 53 := by
  rcases eq_or_lt_of_le hx with rfl | hpos
  · simp [toDouble_zero]
  · have hs := (significand_bounds x hpos).1
    have hr := roundTiesToEven_sub_le (x * 2 ^ (52 - Int.log 2 x))
    have hpow : (0 : ℚ) < 2 ^ (Int.log 2 x - 52) := by positivity
    have hx2 : x = x * 2 ^ (52 - Int.log 2 x) * 2 ^ (Int.log 2 x - 52) := (scale_cancel x _).symm
    rw [toDouble_of_pos x hpos]
    have key : (roundTiesToEven (x * 2 ^ (52 - Int.log 2 x)) : ℚ) * 2 ^ (Int.log 2 x - 52) - x =
        ((roundTiesToEven (x * 2 ^ (52 - Int.log 2 x)) : ℚ) - x * 2 ^ (52 - Int.log 2 x)) *
          2 ^ (Int.log 2 x - 52) := by
      rw [sub_mul, scale_cancel]
    rw [key, abs_mul, abs_of_pos hpow]
    have h52 : (2 : ℚ) ^ (52 : ℤ) = 2 ^ 52 := by norm_cast
    rw [h52] at hs
    -- `1/2 * 2^(e-52) ≤ x / 2^53` since `2^52 * 2^(e-52) ≤ x`
    have h3 : (2 : ℚ) ^ 52 * 2 ^ (Int.log 2 x - 52) ≤ x := by
      calc (2 : ℚ) ^ 52 * 2 ^ (Int.log 2 x - 52)
          ≤ x * 2 ^ (52 - Int.log 2 x) * 2 ^ (Int.log 2 x - 52) :=
            mul_le_mul_of_nonneg_right hs hpow.le
        _ = x := scale_cancel x _
    calc |(roundTiesToEven (x * 2 ^ (52 - Int.log 2 x)) : ℚ) - x * 2 ^ (52 - Int.log 2 x)| *
          2 ^ (Int.log 2 x - 52)
        ≤ 1 / 2 * 2 ^ (Int.log 2 x - 52) := mul_le_mul_of_nonneg_right hr hpow.le
      _ ≤ x / 2 ^ 53 := by
        rw [le_div_iff₀ (by positivity)]
        nlinarith [h3]

theorem toDouble_nonneg (x : ℚ) (hx : 0 ≤ x) : 0 ≤ toDouble x := by
  rcases eq_or_lt_of_le hx with rfl | hpos
  · simp [toDouble_zero]
  · rw [toDouble_of_pos x hpos]
    have hs := (significand_bounds x hpos).1
    have : (0 : ℤ) ≤ roundTiesToEven (x * 2 ^ (52 - Int.log 2 x)) :=
      int_le_roundTiesToEven _ 0 (by push_cast; exact le_trans (by positivity) hs)
    have h0 : (0 : ℚ) ≤ (roundTiesToEven (x * 2 ^ (52 - Int.log 2 x)) : ℚ) := by exact_mod_cast this
    positivity

theorem toDouble_le_pow (x : ℚ) (hx : 0 < x) : toDouble x ≤ 2 ^ (Int.log 2 x + 1) := by
  rw [toDouble_of_pos x hx]
  have hs := (significand_bounds x hx).2
  have hpow : (0 : ℚ) < 2 ^ (Int.log 2 x - 52) := by positivity
  have h53 : (2 : ℚ) ^ (53 : ℤ) = ((2 ^ 53 : ℤ) : ℚ) := by norm_cast
  have hr : roundTiesToEven (x * 2 ^ (52 - Int.log 2 x)) ≤ 2 ^ 53 :=
    roundTiesToEven_le_int _ _ (by rw [← h53]; exact hs.le)
  have hr2 : (roundTiesToEven (x * 2 ^ (52 - Int.log 2 x)) : ℚ) ≤ 2 ^ (53 : ℤ) := by
    rw [h53]; exact_mod_cast hr
  calc (roundTiesToEven (x * 2 ^ (52 - Int.log 2 x)) : ℚ) * 2 ^ (Int.log 2 x - 52)
      ≤ 2 ^ (53 : ℤ) * 2 ^ (Int.log 2 x - 52) := mul_le_mul_of_nonneg_right hr2 hpow.le
    _ = 2 ^ (Int.log 2 x + 1) := by
      rw [← zpow_add₀ (by norm_num : (2 : ℚ) ≠ 0)]
      congr 1
      ring

theorem pow_le_toDouble (x : ℚ) (hx : 0 < x) : 2 ^ Int.log 2 x ≤ toDouble x := by
  rw [toDouble_of_pos x hx]
  have hs := (significand_bounds x hx).1
  have hpow : (0 : ℚ) < 2 ^ (Int.log 2 x - 52) := by positivity
  have h52 : (2 : ℚ) ^ (52 : ℤ) = ((2 ^ 52 : ℤ) : ℚ) := by norm_cast
  have hr : (2 ^ 52 : ℤ) ≤ roundTiesToEven (x * 2 ^ (52 - Int.log 2 x)) :=
    int_le_roundTiesToEven _ _ (by rw [← h52]; exact hs)
  have hr2 : (2 : ℚ) ^ (52 : ℤ) ≤ (roundTiesToEven (x * 2 ^ (52 - Int.log 2 x)) : ℚ) := by
    rw [h52]; exact_mod_cast hr
  calc (2 : ℚ) ^ Int.log 2 x = 2 ^ (52 : ℤ) * 2 ^ (Int.log 2 x - 52) := by
        rw [← zpow_add₀ (by norm_num : (2 : ℚ) ≠ 0)]
        congr 1
        ring
    _ ≤ (roundTiesToEven (x * 2 ^ (52 - Int.log 2 x)) : ℚ) * 2 ^ (Int.log 2 x - 52) :=
        mul_le_mul_of_nonneg_right hr2 hpow.le

/-- Rounding to binary64 is monotone. -/
theorem toDouble_mono (x y : ℚ) (hx : 0 ≤ x) (h : x ≤ y) : toDouble x ≤ toDouble y := by
  rcases eq_or_lt_of_le hx with rfl | hpos
  · rw [toDouble_zero]
    exact toDouble_nonneg y h
  · have hy : 0 < y := lt_of_lt_of_le hpos h
    rcases eq_or_lt_of_le (Int.log_mono_right (b := 2) hpos h) with heq | hlt
    · rw [toDouble_of_pos x hpos, toDouble_of_pos y hy, ← heq]
      have hpow : (0 : ℚ) < 2 ^ (Int.log 2 x - 52) := by positivity
      have hpow2 : (0 : ℚ) < 2 ^ (52 - Int.log 2 x) := by positivity
      have hm := roundTiesToEven_mono _ _ (mul_le_mul_of_nonneg_right h hpow2.le)
      exact mul_le_mul_of_nonneg_right (by exact_mod_cast hm) hpow.le
    · calc toDouble x ≤ 2 ^ (Int.log 2 x + 1) := toDouble_le_pow x hpos
        _ ≤ 2 ^ Int.log 2 y := zpow_le_zpow_right₀ (by norm_num) (by omega)
        _ ≤ toDouble y := pow_le_toDouble y hy

theorem int_log_eq (x : ℚ) (e : ℤ) (hx : 0 < x) (h1 : (2 : ℚ) ^ e ≤ x)
    (h2 : x < (2 : ℚ) ^ (e + 1)) : Int.log 2 x = e := by
  have a : e ≤ Int.log 2 x := (Int.zpow_le_iff_le_log (by norm_num) hx).mp (by exact_mod_cast h1)
  have b : Int.log 2 x < e + 1 :=
    (Int.lt_zpow_iff_log_lt (by norm_num) hx).mp (by exact_mod_cast h2)
  omega

/-- The binary64 value of `x`, from its exponent and its rounded significand. -/
theorem toDouble_eval (x : ℚ) (e m : ℤ) (hx : 0 < x) (h1 : (2 : ℚ) ^ e ≤ x)
    (h2 : x < (2 : ℚ) ^ (e + 1)) (hm : roundTiesToEven (x * 2 ^ (52 - e)) = m) :
    toDouble x = m * 2 ^ (e - 52) := by
  rw [toDouble_of_pos x hx, int_log_eq x e hx h1 h2, hm]

/-- A value whose significand has at most 53 bits is a binary64 value. -/
theorem toDouble_eq_self (x : ℚ) (e m : ℤ) (hx : 0 < x) (h1 : (2 : ℚ) ^ e ≤ x)
    (h2 : x < (2 : ℚ) ^ (e + 1)) (hm : x * 2 ^ (52 - e) = m) : toDouble x = x := by
  rw [toDouble_eval x e m hx h1 h2 (by rw [hm, roundTiesToEven_intCast]), ← hm, scale_cancel]

/-- Integers below `2^53` are binary64 values. -/
theorem toDouble_natCast (n : ℕ) (h : n < 2 ^ 53) : toDouble (n : ℚ) = n := by
  rcases Nat.eq_zero_or_pos n with rfl | hpos
  · simp [toDouble_zero]
  · have hne : n ≠ 0 := by omega
    have hk : Nat.log 2 n < 53 := Nat.log_lt_of_lt_pow hne h
    have h1 : 2 ^ Nat.log 2 n ≤ n := Nat.pow_log_le_self 2 hne
    have h2 : n < 2 ^ (Nat.log 2 n).succ := Nat.lt_pow_succ_log_self (by norm_num) n
    apply toDouble_eq_self (n : ℚ) (Nat.log 2 n : ℤ) ((n * 2 ^ (52 - Nat.log 2 n) : ℕ) : ℤ)
    · exact_mod_cast hpos
    · rw [zpow_natCast]; exact_mod_cast h1
    · have : ((Nat.log 2 n : ℤ) + 1) = ((Nat.log 2 n).succ : ℕ) := by push_cast; ring
      rw [this, zpow_natCast]; exact_mod_cast h2
    · have : (52 : ℤ) - (Nat.log 2 n : ℤ) = ((52 - Nat.log 2 n : ℕ) : ℤ) := by omega
      rw [this, zpow_natCast]
      push_cast
      ring

theorem roundTiesToEven_eq_of_near (q : ℚ) (z : ℤ) (h1 : (z : ℚ) - 1 / 2 < q)
    (h2 : q < z + 1 / 2) : roundTiesToEven q = z := by
  have h := abs_le.mp (roundTiesToEven_sub_le q)
  have a : ((roundTiesToEven q : ℤ) : ℚ) < ((z + 1 : ℤ) : ℚ) := by push_cast; linarith [h.2]
  have b : ((z - 1 : ℤ) : ℚ) < ((roundTiesToEven q : ℤ) : ℚ) := by push_cast; linarith [h.1]
  have a2 : roundTiesToEven q < z + 1 := by exact_mod_cast a
  have b2 : z - 1 < roundTiesToEven q := by exact_mod_cast b
  omega

theorem roundTiesToEven_tie_odd (q : ℚ) (z : ℤ) (hq : q = z + 1 / 2) (hz : z % 2 = 1) :
    roundTiesToEven q = z + 1 := by
  have hf : ⌊q⌋ = z := by
    rw [Int.floor_eq_iff, hq]
    constructor <;> linarith
  unfold roundTiesToEven
  rw [hf, hq]
  have e1 : ((z : ℚ) + 1 / 2 - z) = 1 / 2 := by ring
  rw [e1]
  simp only [lt_self_iff_false, if_false]
  rw [if_neg (by omega)]

theorem mathRound_eq (x : ℚ) (z : ℤ) (h1 : (z : ℚ) ≤ x + 1 / 2) (h2 : x + 1 / 2 < z + 1) :
    mathRound x = z := by
  unfold mathRound
  rw [Int.floor_eq_iff]
  exact ⟨h1, h2⟩

theorem mathRound_mono (x y : ℚ) (h : x ≤ y) : mathRound x ≤ mathRound y :=
  Int.floor_mono (by linarith)

theorem toDouble_one : toDouble 1 = 1 := by
  have := toDouble_natCast 1 (by norm_num)
  simpa using this

theorem toDouble_hundred : toDouble 100 = 100 := by
  have := toDouble_natCast 100 (by norm_num)
  simpa using this

theorem toDouble_natCast_pos (t : ℕ) (ht : 0 < t) : 1 ≤ toDouble (t : ℚ) := by
  have h := toDouble_mono 1 (t : ℚ) (by norm_num) (by exact_mod_cast ht)
  rwa [toDouble_one] at h

/-- The percentage computed from `loaded ≤ total` lies between 0 and 100. -/
theorem percent_range (l t : ℕ) (ht : 0 < t) (hl : l ≤ t) :
    0 ≤ mathRound (toDouble (toDouble (toDouble l / toDouble t) * 100)) ∧
      mathRound (toDouble (toDouble (toDouble l / toDouble t) * 100)) ≤ 100 := by
  have hT : 1 ≤ toDouble (t : ℚ) := toDouble_natCast_pos t ht
  have hL0 : 0 ≤ toDouble (l : ℚ) := toDouble_nonneg _ (by positivity)
  have hLT : toDouble (l : ℚ) ≤ toDouble (t : ℚ) :=
    toDouble_mono _ _ (by positivity) (by exact_mod_cast hl)
  have hx0 : 0 ≤ toDouble (l : ℚ) / toDouble (t : ℚ) := div_nonneg hL0 (by linarith)
  have hx1 : toDouble (l : ℚ) / toDouble (t : ℚ) ≤ 1 := by
    rw [div_le_one (by linarith)]
    exact hLT
  have hd0 : 0 ≤ toDouble (toDouble (l : ℚ) / toDouble (t : ℚ)) := toDouble_nonneg _ hx0
  have hd1 : toDouble (toDouble (l : ℚ) / toDouble (t : ℚ)) ≤ 1 := by
    have := toDouble_mono _ 1 hx0 hx1
    rwa [toDouble_one] at this
  have hp0 : 0 ≤ toDouble (toDouble (toDouble (l : ℚ) / toDouble (t : ℚ)) * 100) :=
    toDouble_nonneg _ (by positivity)
  have hp1 : toDouble (toDouble (toDouble (l : ℚ) / toDouble (t : ℚ)) * 100) ≤ 100 := by
    have := toDouble_mono (toDouble (toDouble (l : ℚ) / toDouble (t : ℚ)) * 100) 100
      (by positivity) (by linarith)
    rwa [toDouble_hundred] at this
  constructor
  · unfold mathRound
    rw [Int.floor_nonneg]
    linarith
  · unfold mathRound
    rw [Int.floor_le_iff]
    push_cast
    linarith

/-- The percentage is monotone in the number of bytes sent. -/
theorem percent_mono (l₁ l₂ t : ℕ) (ht : 0 < t) (h : l₁ ≤ l₂) :
    mathRound (toDouble (toDouble (toDouble l₁ / toDouble t) * 100)) ≤
      mathRound (toDouble (toDouble (toDouble l₂ / toDouble t) * 100)) := by
  have hT : 1 ≤ toDouble (t : ℚ) := toDouble_natCast_pos t ht
  have hL0 : 0 ≤ toDouble (l₁ : ℚ) := toDouble_nonneg _ (by positivity)
  have hL : toDouble (l₁ : ℚ) ≤ toDouble (l₂ : ℚ) :=
    toDouble_mono _ _ (by positivity) (by exact_mod_cast h)
  have hx0 : 0 ≤ toDouble (l₁ : ℚ) / toDouble (t : ℚ) := div_nonneg hL0 (by linarith)
  have hx : toDouble (l₁ : ℚ) / toDouble (t : ℚ) ≤ toDouble (l₂ : ℚ) / toDouble (t : ℚ) :=
    div_le_div_of_nonneg_right hL (by linarith)
  have hd0 : 0 ≤ toDouble (toDouble (l₁ : ℚ) / toDouble (t : ℚ)) := toDouble_nonneg _ hx0
  have hd := toDouble_mono _ _ hx0 hx
  apply mathRound_mono
  apply toDouble_mono _ _ (by positivity)
  linarith

/-- For totals up to `2^44` the percentage is a nearest integer of the exact quotient. -/
theorem percent_near (l t : ℕ) (ht : 0 < t) (hl : l ≤ t) (hb : t ≤ 2 ^ 44) :
    |(mathRound (toDouble (toDouble (toDouble l / toDouble t) * 100)) : ℚ) -
      (l : ℚ) / t * 100| ≤ 1 / 2 := by
  have ht53 : t < 2 ^ 53 := lt_of_le_of_lt hb (by norm_num)
  rw [toDouble_natCast l (by omega), toDouble_natCast t ht53]
  have hT : (0 : ℚ) < t := by exact_mod_cast ht
  have hTb : (t : ℚ) ≤ 2 ^ 44 := by exact_mod_cast hb
  have hLT : (l : ℚ) ≤ t := by exact_mod_cast hl
  have hL0 : (0 : ℚ) ≤ l := by positivity
  have hx0 : 0 ≤ (l : ℚ) / t := div_nonneg hL0 hT.le
  have hx1 : (l : ℚ) / t ≤ 1 := by rw [div_le_one hT]; exact hLT
  have hd := abs_le.mp (toDouble_sub_le _ hx0)
  have hd0 : 0 ≤ toDouble ((l : ℚ) / t) := toDouble_nonneg _ hx0
  have hp := abs_le.mp (toDouble_sub_le (toDouble ((l : ℚ) / t) * 100) (by positivity))
  set x : ℚ := (l : ℚ) / t with hxdef
  set d : ℚ := toDouble x with hddef
  set p : ℚ := toDouble (d * 100) with hpdef
  set n : ℤ := mathRound p with hndef
  have hn1 : (n : ℚ) ≤ p + 1 / 2 := Int.floor_le _
  have hn2 : p + 1 / 2 < n + 1 := Int.lt_floor_add_one _
  -- the computed product is within `201 / 2^53` of the exact one
  have hu : (0 : ℚ) < 1 / 2 ^ 53 := by positivity
  have e1 : p ≤ x * 100 + 201 / 2 ^ 53 := by
    have a1 := hp.2
    have a2 := hd.2
    norm_num at a1 a2 ⊢
    linarith
  have e2 : x * 100 - 201 / 2 ^ 53 ≤ p := by
    have a1 := hp.1
    have a2 := hd.1
    norm_num at a1 a2 ⊢
    linarith
  have hxt : x * t = l := by rw [hxdef]; field_simp
  -- `2 n t ≤ 200 l + t` and `200 l - t ≤ 2 n t`, first over the rationals up to `< 1`
  have k1 : (2 * n * t : ℚ) < 200 * l + t + 1 := by
    have : (n : ℚ) * t ≤ (x * 100 + 201 / 2 ^ 53 + 1 / 2) * t :=
      mul_le_mul_of_nonneg_right (by linarith) hT.le
    have hsmall : (201 / 2 ^ 53 : ℚ) * t ≤ 201 / 2 ^ 53 * 2 ^ 44 :=
      mul_le_mul_of_nonneg_left hTb (by positivity)
    have : (n : ℚ) * t ≤ 100 * l + 201 / 2 ^ 53 * t + 1 / 2 * t := by
      calc (n : ℚ) * t ≤ (x * 100 + 201 / 2 ^ 53 + 1 / 2) * t := this
        _ = 100 * (x * t) + 201 / 2 ^ 53 * t + 1 / 2 * t := by ring
        _ = 100 * l + 201 / 2 ^ 53 * t + 1 / 2 * t := by rw [hxt]
    norm_num at hsmall
    linarith
  have k2 : (200 * l - t - 1 : ℚ) < 2 * n * t := by
    have : (x * 100 - 201 / 2 ^ 53 - 1 / 2) * t < (n : ℚ) * t :=
      mul_lt_mul_of_pos_right (by linarith) hT
    have hsmall : (201 / 2 ^ 53 : ℚ) * t ≤ 201 / 2 ^ 53 * 2 ^ 44 :=
      mul_le_mul_of_nonneg_left hTb (by positivity)
    have : 100 * l - 201 / 2 ^ 53 * t - 1 / 2 * t < (n : ℚ) * t := by
      calc (100 * l - 201 / 2 ^ 53 * t - 1 / 2 * t : ℚ)
          = 100 * (x * t) - 201 / 2 ^ 53 * t - 1 / 2 * t := by rw [hxt]
        _ = (x * 100 - 201 / 2 ^ 53 - 1 / 2) * t := by ring
        _ < (n : ℚ) * t := this
    norm_num at hsmall
    linarith
  have k1' : 2 * n * (t : ℤ) < 200 * (l : ℤ) + t + 1 := by exact_mod_cast k1
  have k2' : 200 * (l : ℤ) - t - 1 < 2 * n * (t : ℤ) := by exact_mod_cast k2
  have k1'' : (2 * n * t : ℚ) ≤ 200 * l + t := by exact_mod_cast (show 2 * n * (t : ℤ) ≤ 200 * (l : ℤ) + t by omega)
  have k2'' : (200 * l - t : ℚ) ≤ 2 * n * t := by exact_mod_cast (show 200 * (l : ℤ) - t ≤ 2 * n * (t : ℤ) by omega)
  rw [abs_le]
  constructor
  · -- `x * 100 - 1/2 ≤ n`
    have : (x * 100 - 1 / 2) * t ≤ n * t := by
      calc (x * 100 - 1 / 2) * t = 100 * (x * t) - 1 / 2 * t := by ring
        _ = 100 * l - 1 / 2 * t := by rw [hxt]
        _ ≤ n * t := by linarith
    have := le_of_mul_le_mul_right this hT
    linarith
  · have : (n : ℚ) * t ≤ (x * 100 + 1 / 2) * t := by
      calc (n : ℚ) * t ≤ 100 * l + 1 / 2 * t := by linarith
        _ = 100 * (x * t) + 1 / 2 * t := by rw [hxt]
        _ = (x * 100 + 1 / 2) * t := by ring
    have := le_of_mul_le_mul_right this hT
    linarith

theorem percentage_eval (e : ProgressEvent) (d p : ℚ) (n : ℤ) (ht : e.total ≠ 0)
    (hl53 : e.loaded < 2 ^ 53) (ht53 : e.total < 2 ^ 53)
    (hd : toDouble ((e.loaded : ℚ) / e.total) = d) (hp : toDouble (d * 100) = p)
    (hn : mathRound p = n) : percentage e = .finite n := by
  unfold percentage
  rw [if_neg ht, toDouble_natCast _ hl53, toDouble_natCast _ ht53, hd, hp, hn]

theorem percentage_quarter : percentage ⟨true, 25, 100⟩ = .finite 25 := by
  have h25 : toDouble 25 = 25 := by simpa using toDouble_natCast 25 (by norm_num)
  have := percentage_eval ⟨true, 25, 100⟩ (1 / 4) 25 25 (by decide) (by norm_num) (by norm_num)
    (by
      have : ((25 : ℕ) : ℚ) / ((100 : ℕ) : ℚ) = 1 / 4 := by norm_num
      show toDouble (((25 : ℕ) : ℚ) / ((100 : ℕ) : ℚ)) = 1 / 4
      rw [this]
      exact toDouble_eq_self (1 / 4) (-2) (2 ^ 52) (by norm_num) (by norm_num) (by norm_num)
        (by norm_num))
    (by norm_num [h25])
    (mathRound_eq 25 25 (by norm_num) (by norm_num))
  simpa using this

theorem percentage_tie_up :
    percentage ⟨true, 447545212969943, 562949953421312⟩ = .finite 80 := by
  have := percentage_eval ⟨true, 447545212969943, 562949953421312⟩
    (447545212969943 / 562949953421312) (159 / 2) 80 (by decide) (by norm_num) (by norm_num)
    (by
      show toDouble (((447545212969943 : ℕ) : ℚ) / ((562949953421312 : ℕ) : ℚ)) = _
      push_cast
      exact toDouble_eq_self _ (-1) (447545212969943 * 16) (by norm_num) (by norm_num)
        (by norm_num) (by norm_num))
    (by
      rw [toDouble_eval (447545212969943 / 562949953421312 * 100) 6 5594315162124288
        (by norm_num) (by norm_num) (by norm_num)
        (roundTiesToEven_tie_odd _ 5594315162124287 (by norm_num) (by norm_num))]
      norm_num)
    (mathRound_eq _ 80 (by norm_num) (by norm_num))
  simpa using this

theorem percentage_half : percentage ⟨true, 50, 100⟩ = .finite 50 := by
  have h50 : toDouble 50 = 50 := by simpa using toDouble_natCast 50 (by norm_num)
  have := percentage_eval ⟨true, 50, 100⟩ (1 / 2) 50 50 (by decide) (by norm_num) (by norm_num)
    (by
      have : ((50 : ℕ) : ℚ) / ((100 : ℕ) : ℚ) = 1 / 2 := by norm_num
      show toDouble (((50 : ℕ) : ℚ) / ((100 : ℕ) : ℚ)) = 1 / 2
      rw [this]
      exact toDouble_eq_self (1 / 2) (-1) (2 ^ 52) (by norm_num) (by norm_num) (by norm_num)
        (by norm_num))
    (by norm_num [h50])
    (mathRound_eq 50 50 (by norm_num) (by norm_num))
  simpa using this

theorem percentage_three_quarters : percentage ⟨true, 75, 100⟩ = .finite 75 := by
  have h75 : toDouble 75 = 75 := by simpa using toDouble_natCast 75 (by norm_num)
  have := percentage_eval ⟨true, 75, 100⟩ (3 / 4) 75 75 (by decide) (by norm_num) (by norm_num)
    (by
      have : ((75 : ℕ) : ℚ) / ((100 : ℕ) : ℚ) = 3 / 4 := by norm_num
      show toDouble (((75 : ℕ) : ℚ) / ((100 : ℕ) : ℚ)) = 3 / 4
      rw [this]
      exact toDouble_eq_self (3 / 4) (-1) (3 * 2 ^ 51) (by norm_num) (by norm_num)
        (by norm_num) (by norm_num))
    (by norm_num [h75])
    (mathRound_eq 75 75 (by norm_num) (by norm_num))
  simpa using this

theorem percentage_whole : percentage ⟨true, 100, 100⟩ = .finite 100 := by
  have := percentage_eval ⟨true, 100, 100⟩ 1 100 100 (by decide) (by norm_num) (by norm_num)
    (by
      have : ((100 : ℕ) : ℚ) / ((100 : ℕ) : ℚ) = 1 := by norm_num
      show toDouble (((100 : ℕ) : ℚ) / ((100 : ℕ) : ℚ)) = 1
      rw [this]
      exact toDouble_one)
    (by norm_num [toDouble_hundred])
    (mathRound_eq 100 100 (by norm_num) (by norm_num))
  simpa using this

/-- At the exact tie `29/200 = 14.5 %` the binary64 product is `14.499999999999998`, and
the percentage is 14. -/
theorem percentage_tie_down : percentage ⟨true, 29, 200⟩ = .finite 14 := by
  have := percentage_eval ⟨true, 29, 200⟩
    (5224175567749775 / 2 ^ 55) (8162774324609023 / 2 ^ 49) 14
    (by decide) (by norm_num) (by norm_num)
    (by
      show toDouble (((29 : ℕ) : ℚ) / ((200 : ℕ) : ℚ)) = _
      rw [toDouble_eval (((29 : ℕ) : ℚ) / ((200 : ℕ) : ℚ)) (-3) 5224175567749775
        (by norm_num) (by norm_num) (by norm_num)
        (roundTiesToEven_eq_of_near _ 5224175567749775 (by norm_num) (by norm_num))]
      norm_num)
    (by
      rw [toDouble_eval (5224175567749775 / 2 ^ 55 * 100) 3 8162774324609023
        (by norm_num) (by norm_num) (by norm_num)
        (roundTiesToEven_eq_of_near _ 8162774324609023 (by norm_num) (by norm_num))]
      norm_num)
    (mathRound_eq _ 14 (by norm_num) (by norm_num))
  simpa using this

/-! ## `uploadFile`: progress -/

theorem percentage_of_pos (e : ProgressEvent) (h : 0 < e.total) :
    percentage e =
      .finite (mathRound (toDouble (toDouble (toDouble e.loaded / toDouble e.total) * 100))) := by
  unfold percentage
  rw [if_neg (by omega)]

/-- C8, as stated, fails: for 447545212969943 bytes sent of 2^49, the exact percentage
is below 79.5, so its nearest integer is 79, and `onProgress` is called with 80. (And
for 29 bytes sent of 200, exactly 14.5 %, `onProgress` is called with 14, where
`Math.round` of the exact value would be 15.) -/
theorem onProgress_nearest_counterexample :
    (onProgressEvent true ⟨true, 447545212969943, 562949953421312⟩ = some (.finite 80) ∧
      (447545212969943 : ℚ) / 562949953421312 * 100 < 79 + 1 / 2 ∧
      1 / 2 < |(80 : ℚ) - 447545212969943 / 562949953421312 * 100| ∧
      447545212969943 ≤ 562949953421312 ∧ 562949953421312 < 2 ^ 64) ∧
    (onProgressEvent true ⟨true, 29, 200⟩ = some (.finite 14) ∧
      mathRound ((29 : ℚ) / 200 * 100) = 15) := by
  refine ⟨⟨?_, by norm_num, ?_, by norm_num, by norm_num⟩, ?_, ?_⟩
  · simp [onProgressEvent, percentage_tie_up]
  · rw [abs_of_pos (by norm_num)]
    norm_num
  · simp [onProgressEvent, percentage_tie_down]
  · exact mathRound_eq _ 15 (by norm_num) (by norm_num)

/-- C8, as amended. For a progress event without a computable total, `onProgress` is not
called. For a progress event with a computable total, `total > 0` and
`0 ≤ loaded ≤ total`, `onProgress` is called with an integer in `[0, 100]`: `Math.round`
of the binary64 product `(loaded / total) * 100`; and when `total ≤ 2^44`, this integer
is within `1/2` of the exact `loaded / total * 100`, so it is a nearest integer. -/
theorem onProgress_percentage (cb : Bool) (e : ProgressEvent) :
    (e.lengthComputable = false → onProgressEvent cb e = none) ∧
    (e.lengthComputable = true → 0 < e.total → e.loaded ≤ e.total →
      ∃ n : ℤ, onProgressEvent true e = some (.finite n) ∧ 0 ≤ n ∧ n ≤ 100 ∧
        (e.total ≤ 2 ^ 44 → |(n : ℚ) - (e.loaded : ℚ) / e.total * 100| ≤ 1 / 2)) := by
  constructor
  · intro h
    simp [onProgressEvent, h]
  · intro hc ht hl
    refine ⟨mathRound (toDouble (toDouble (toDouble e.loaded / toDouble e.total) * 100)),
      ?_, (percent_range _ _ ht hl).1, (percent_range _ _ ht hl).2,
      fun hb => percent_near _ _ ht hl hb⟩
    simp [onProgressEvent, hc, percentage_of_pos e ht]

/-- The amended C8 at 29 bytes sent of 200, and at an event without a total. -/
theorem onProgress_percentage_witness :
    onProgressEvent true ⟨false, 29, 0⟩ = none ∧
    ∃ n : ℤ, onProgressEvent true ⟨true, 29, 200⟩ = some (.finite n) ∧ 0 ≤ n ∧ n ≤ 100 ∧
      ((200 : ℕ) ≤ 2 ^ 44 → |(n : ℚ) - ((29 : ℕ) : ℚ) / (200 : ℕ) * 100| ≤ 1 / 2) :=
  ⟨(onProgress_percentage true ⟨false, 29, 0⟩).1 rfl,
    (onProgress_percentage true ⟨true, 29, 200⟩).2 rfl (by decide) (by decide)⟩

theorem progress_eq (cb : Bool) (events : List ProgressEvent) (total : ℕ) (fin : XhrEnd)
    (ht : 0 < total) (hev : ∀ e ∈ events, e.total = total) :
    (uploadFile cb events fin).progress =
      ((events.filter (fun e => e.lengthComputable && cb)).map
        (fun e => mathRound (toDouble (toDouble (toDouble e.loaded / toDouble total) * 100)))).map
        (fun n : ℤ => JSNumber.finite (n : ℚ)) := by
  show events.filterMap (onProgressEvent cb) = _
  induction events with
  | nil => rfl
  | cons e es ih =>
    have he : e.total = total := hev e (by simp)
    have ih2 := ih (fun a ha => hev a (by simp [ha]))
    by_cases hg : (e.lengthComputable && cb) = true
    · simp only [List.filterMap_cons, List.filter_cons, onProgressEvent, hg, if_true,
        List.map_cons]
      rw [ih2, percentage_of_pos e (by omega), he]
    · simp only [List.filterMap_cons, List.filter_cons, onProgressEvent, hg]
      exact ih2

/-- C9. Within one upload with a fixed total `> 0`, when the successive progress events
report non-decreasing `loaded` counts, the integers passed to `onProgress` are
non-decreasing; and 25, 50, 75, 100 bytes sent of 100 give `[25, 50, 75, 100]`. -/
theorem onProgress_monotone :
    (∀ (cb : Bool) (events : List ProgressEvent) (total : ℕ) (fin : XhrEnd),
      0 < total → (∀ e ∈ events, e.total = total) →
      events.Pairwise (fun a b => a.loaded ≤ b.loaded) →
      ∃ ns : List ℤ,
        (uploadFile cb events fin).progress = ns.map (fun n : ℤ => JSNumber.finite (n : ℚ)) ∧
          ns.Pairwise (fun a b => a ≤ b)) ∧
    (∀ fin : XhrEnd,
      (uploadFile true [⟨true, 25, 100⟩, ⟨true, 50, 100⟩, ⟨true, 75, 100⟩, ⟨true, 100, 100⟩]
        fin).progress = [.finite 25, .finite 50, .finite 75, .finite 100]) := by
  constructor
  · intro cb events total fin ht hev hsorted
    refine ⟨_, progress_eq cb events total fin ht hev, ?_⟩
    apply List.Pairwise.map _ _ (hsorted.filter _)
    intro a b hab
    exact percent_mono a.loaded b.loaded total ht hab
  · intro fin
    show List.filterMap (onProgressEvent true) _ = _
    simp [onProgressEvent, percentage_quarter, percentage_half, percentage_three_quarters,
      percentage_whole]

/-- C9 at an upload of 100 bytes reported in four events, the second without progress. -/
theorem onProgress_monotone_witness :
    ∃ ns : List ℤ,
      (uploadFile true [⟨true, 25, 100⟩, ⟨true, 25, 100⟩, ⟨true, 75, 100⟩, ⟨true, 100, 100⟩]
        .error).progress = ns.map (fun n : ℤ => JSNumber.finite (n : ℚ)) ∧
        ns.Pairwise (fun a b => a ≤ b) :=
  onProgress_monotone.1 true _ 100 .error (by decide) (by decide) (by decide)

end Qcus
